import Mathlib

/-
A verification development for the `typedconfig` loading core
(`src/typedconfig/core.py`): a shallow embedding of the
recursive, annotation-directed configuration loader, together with
theorems settling the frozen claims about it.

Modelling conventions:
- Python values are the inductive `Value`; Python dicts are ordered
  association lists over `String` keys with Python `dict` update
  semantics (an existing key keeps its position, a new key is appended).
- A declared field type (a Python annotation object) is the inductive
  `Ty`: `builtin` covers classes from the `builtins` module, `tomlMod`
  classes from `datetime`/`math`, `record` a user-defined class,
  `listT`/`dictT` the parameterized generics `list[...]`/`dict[...]`,
  `tUnion` a `typing.Union[...]` (including `typing.Optional`), and
  `pUnion` the `types.UnionType` produced by the `|` operator.
  `noneLit` is a literal `None` used as an annotation.
- A user class is `PyClass`: its name, its method-resolution order
  (the class itself first, as in `cls.__mro__`), and whether it is a
  dataclass.  Each mro entry carries the per-class annotation mapping
  (absent when `"__annotations__" not in c.__dict__`) and the class
  namespace `c.__dict__` restricted to field defaults.
- Raised Python exceptions are modelled by `Except`: the loader's own
  `ConfigErrorMissingKey` / `ConfigErrorInvalidType` / `ValueError`
  conditions are distinguished; incidental interpreter exceptions
  (TypeError / KeyError / AttributeError) are collapsed into `pyErr`.
- The type-matching primitive (the external `typeguard` predicate
  wrapped by `check_type`) is out of core scope per the spec, so it is
  a parameter `ct : Value → Ty → Bool` of the pipeline.
- Unbounded recursion through `load_into_recurse` is modelled by fuel;
  running out is the distinguished `noFuel` outcome.
-/

namespace TypedConfig

/-- A Python runtime value, as far as the loader observes it: `none` is
the Python `None`, `dict` a string-keyed mapping, `inst` a constructed
instance of a user class (its class name plus its `__dict__`). -/
inductive Value : Type where
  | none : Value
  | bool : Bool → Value
  | int : Int → Value
  | str : String → Value
  | list : List Value → Value
  | dict : List (String × Value) → Value
  | inst : String → List (String × Value) → Value

mutual

/-- A type annotation object (`Type Descriptor` in the spec). -/
inductive Ty : Type where
  | builtin : String → Ty
  | tomlMod : String → Ty
  | noneLit : Ty
  | record : PyClass → Ty
  | listT : Ty → Ty
  | dictT : Ty → Ty → Ty
  | tUnion : List Ty → Ty
  | pUnion : List Ty → Ty

/-- A user-defined class: name, `__mro__` (the class itself first),
and whether `dataclasses.is_dataclass` holds for it. -/
inductive PyClass : Type where
  | mk : String → List MroEntry → Bool → PyClass

/-- One entry of a class's mro: the ancestor's name, its own
`__annotations__` mapping when `"__annotations__"` is in its
`__dict__`, and the field defaults found in its `__dict__`. -/
inductive MroEntry : Type where
  | mk : String → Option (List (String × Ty)) → List (String × Value) → MroEntry

end

def PyClass.name : PyClass → String
  | PyClass.mk n _ _ => n

def PyClass.mro : PyClass → List MroEntry
  | PyClass.mk _ m _ => m

def PyClass.isDataclass : PyClass → Bool
  | PyClass.mk _ _ b => b

def MroEntry.entryName : MroEntry → String
  | MroEntry.mk n _ _ => n

def MroEntry.annots : MroEntry → Option (List (String × Ty))
  | MroEntry.mk _ a _ => a

def MroEntry.classDict : MroEntry → List (String × Value)
  | MroEntry.mk _ _ d => d

/-- `cls.__dict__`: the class's own namespace, i.e. that of the first
entry of its mro. -/
def PyClass.ownDict : PyClass → List (String × Value)
  | PyClass.mk _ [] _ => []
  | PyClass.mk _ (e :: _) _ => MroEntry.classDict e

/-- Errors a load can surface: the loader's own `ConfigErrorMissingKey`
and `ConfigErrorInvalidType`, the `ValueError` guarding augmentation
mode, any incidental Python exception (`pyErr`), and the fuel-exhaustion
marker standing for unbounded recursion. -/
inductive Err : Type where
  | missingKey : String → PyClass → Ty → Err
  | invalidType : String → Value → Ty → Err
  | valueError : Err
  | pyErr : Err
  | noFuel : Err

/-- The black-box type-matching predicate (the external `typeguard`
check wrapped by the source's `check_type`). -/
abbrev CheckPred : Type := Value → Ty → Bool

/-! ### Python dict operations on association lists -/

/-- `d[k]` lookup (first matching key). -/
def alGet? {α : Type} : List (String × α) → String → Option α
  | [], _ => Option.none
  | p :: rest, k => if p.1 = k then Option.some p.2 else alGet? rest k

/-- `d[k] = v` with Python dict semantics: an existing key keeps its
position, a new key is appended at the end. -/
def alInsert {α : Type} : List (String × α) → String → α → List (String × α)
  | [], k, v => [(k, v)]
  | p :: rest, k, v => if p.1 = k then (p.1, v) :: rest else p :: alInsert rest k v

/-- `list(d.keys())`. -/
def alKeys {α : Type} (l : List (String × α)) : List String :=
  l.map Prod.fst

/-- `d |= u` / `d.update(u)`. -/
def dictUpdate {α : Type} (d u : List (String × α)) : List (String × α) :=
  u.foldl (fun acc kv => alInsert acc kv.1 kv.2) d

/-! ### Type Predicate Utilities (source lines 139-209) -/

/-- `type(_type) is type`: holds for actual classes (builtins,
datetime/math classes, user classes); a parameterized generic, a union
object and the literal `None` are not themselves instances of `type`. -/
def tyIsType : Ty → Bool
  | Ty.builtin _ => true
  | Ty.tomlMod _ => true
  | Ty.record _ => true
  | _ => false

/-- `is_builtin_type`: `_type.__module__ in ("__builtin__", "builtins")`.
A `list[...]`/`dict[...]` generic alias proxies `__module__` to its
origin, which lives in `builtins`. -/
def isBuiltinType : Ty → Bool
  | Ty.builtin _ => true
  | Ty.listT _ => true
  | Ty.dictT _ _ => true
  | _ => false

/-- `is_from_types_or_typing`: `_type.__module__ in ("types", "typing")`. -/
def isFromTypesOrTyping : Ty → Bool
  | Ty.tUnion _ => true
  | Ty.pUnion _ => true
  | _ => false

/-- `is_from_other_toml_supported_module`: `_type.__module__ in ("datetime", "math")`. -/
def isFromOtherTomlSupportedModule : Ty → Bool
  | Ty.tomlMod _ => true
  | _ => false

/-- `is_custom_class` (source lines 178-189): a user-defined class is an
instance of `type` whose module is none of the recognised stdlib ones. -/
def isCustomCls (t : Ty) : Bool :=
  tyIsType t && !isBuiltinType t && !isFromOtherTomlSupportedModule t
    && !isFromTypesOrTyping t

/-- `typing.get_origin(_type) is not None` (source `is_parameterized`):
true exactly for `list[...]`, `dict[...]`, `typing.Union[...]` and
`X | Y` unions. -/
def isParameterized : Ty → Bool
  | Ty.listT _ => true
  | Ty.dictT _ _ => true
  | Ty.tUnion _ => true
  | Ty.pUnion _ => true
  | _ => false

/-- `typing.get_args`. -/
def getArgs : Ty → List Ty
  | Ty.listT a => [a]
  | Ty.dictT k v => [k, v]
  | Ty.tUnion args => args
  | Ty.pUnion args => args
  | _ => []

/-- `issubclass(types.NoneType, arg)` for a plain (non-parameterized)
argument, as used on the members of a union: only `NoneType` itself and
`object` have `NoneType` as a subclass; on a parameterized generic the
interpreter raises `TypeError`. -/
def issubclassNoneTypeFlat : Ty → Except Err Bool
  | Ty.builtin n => Except.ok (n = "NoneType" || n = "object")
  | Ty.tomlMod _ => Except.ok false
  | Ty.record _ => Except.ok false
  | _ => Except.error Err.pyErr

/-- The loop of `typing`'s union `__subclasscheck__`: try the members in
order, propagating the `TypeError` a parameterized member raises. -/
def issubclassNoneTypeUnion : List Ty → Except Err Bool
  | [] => Except.ok false
  | a :: rest =>
    match issubclassNoneTypeFlat a with
    | Except.ok true => Except.ok true
    | Except.ok false => issubclassNoneTypeUnion rest
    | Except.error e => Except.error e

/-- Is a `|`-union member a plain class (required for its
`issubclass` support)? -/
def isPlainCls : Ty → Bool
  | Ty.builtin _ => true
  | Ty.tomlMod _ => true
  | Ty.record _ => true
  | _ => false

/-- `issubclass(types.NoneType, _type)`: `True` on `NoneType`/`object`,
`False` on other classes, membership test on unions, and a raised
`TypeError` on a parameterized generic (`issubclass() argument 2 cannot
be a parameterized generic`) or on a non-class object. -/
def issubclassNoneType : Ty → Except Err Bool
  | Ty.builtin n => Except.ok (n = "NoneType" || n = "object")
  | Ty.tomlMod _ => Except.ok false
  | Ty.record _ => Except.ok false
  | Ty.noneLit => Except.error Err.pyErr
  | Ty.listT _ => Except.error Err.pyErr
  | Ty.dictT _ _ => Except.error Err.pyErr
  | Ty.tUnion args => issubclassNoneTypeUnion args
  | Ty.pUnion args =>
    if args.all isPlainCls then
      Except.ok (args.any fun a =>
        match a with
        | Ty.builtin n => n = "NoneType" || n = "object"
        | _ => false)
    else Except.error Err.pyErr

/-- `issubclass(types.NoneType, type(_type))`: the metatype of an
annotation object is `type` (or a generic-alias/union class), none of
which has `NoneType` as a subclass — except for the literal `None`,
whose type is `NoneType` itself. -/
def typeOfAcceptsNoneType : Ty → Bool
  | Ty.noneLit => true
  | _ => false

/-- `type(None) in typing.get_args(_type)`: equality with the class
`NoneType` (identity, so `object` does not qualify here). -/
def hasNoneTypeArg (t : Ty) : Bool :=
  (getArgs t).any fun a =>
    match a with
    | Ty.builtin n => n = "NoneType"
    | _ => false

/-- `is_optional` (source lines 192-209), exceptions included: the
disjunction is evaluated left to right, so a `TypeError` raised by
`issubclass` on a parameterized generic propagates. -/
def isOptional (t : Ty) : Except Err Bool :=
  match t with
  | Ty.noneLit => Except.ok true
  | _ =>
    match issubclassNoneType t with
    | Except.error e => Except.error e
    | Except.ok true => Except.ok true
    | Except.ok false =>
      if typeOfAcceptsNoneType t then Except.ok true
      else Except.ok (hasNoneTypeArg t)

/-! ### Key Normalizer (source lines 125-132) -/

/-- Key rewriting inside `convert_config`:
`k.replace("-", "_").replace(".", "_")`. -/
def normalizeKey (k : String) : String :=
  String.mk (k.data.map fun c => if c = '-' || c = '.' then '_' else c)

/-- `convert_config`: drop entries whose value is `None` and rewrite the
keys of the rest, rebuilding the dict in iteration order. -/
def convert_config (items : List (String × Value)) : List (String × Value) :=
  items.foldl
    (fun acc kv =>
      match kv.2 with
      | Value.none => acc
      | v => alInsert acc (normalizeKey kv.1) v)
    []

/-! ### Annotation Collector (source lines 293-308) -/

/-- The per-ancestor annotation mappings contributing to the ChainMap:
`(c.__annotations__ for c in cls.__mro__ if "__annotations__" in c.__dict__)`. -/
def annMaps (cls : PyClass) : List (List (String × Ty)) :=
  (PyClass.mro cls).filterMap MroEntry.annots

/-- `ChainMap.__getitem__`: the first map containing the key wins. -/
def chainGet : List (List (String × Ty)) → String → Option Ty
  | [], _ => Option.none
  | m :: ms, k =>
    match alGet? m k with
    | Option.some t => Option.some t
    | Option.none => chainGet ms k

/-- One step of `ChainMap.__iter__`'s key collection
(`d.update(dict.fromkeys(mapping))`): append the keys of one map that
are not yet present. -/
def addKeys (acc : List String) : List (String × Ty) → List String
  | [] => acc
  | p :: rest => addKeys (if p.1 ∈ acc then acc else acc ++ [p.1]) rest

/-- Key collection over the maps, visited like `ChainMap.__iter__` in
reversed order (base-most first). -/
def chainKeysGo (acc : List String) : List (List (String × Ty)) → List String
  | [] => acc
  | m :: ms => chainKeysGo (addKeys acc m) ms

/-- Iteration order of the ChainMap's keys. -/
def chainKeys (maps : List (List (String × Ty))) : List String :=
  chainKeysGo [] maps.reverse

/-- `_all_annotations`: the ChainMap over the mro's annotation mappings,
observed through its items (iteration order with first-map-wins values). -/
def allAnnotationsChain (cls : PyClass) : List (String × Ty) :=
  (chainKeys (annMaps cls)).filterMap fun k =>
    (chainGet (annMaps cls) k).map fun t => (k, t)

/-- `all_annotations`: flatten the ChainMap and filter away the keys in
`_except`. -/
def all_annotations (cls : PyClass) (ex : List String) : List (String × Ty) :=
  (allAnnotationsChain cls).filter fun p => !decide (p.1 ∈ ex)

/-- Direct mro-order field lookup, written from the spec's description
of the Annotation Collector: walk the ancestry most-derived first and
return the first declared descriptor for the name.  Settling C6 compares
this against the ChainMap-based `all_annotations`. -/
def mroLookup : List MroEntry → String → Option Ty
  | [], _ => Option.none
  | e :: rest, k =>
    match MroEntry.annots e with
    | Option.some anns =>
      match alGet? anns k with
      | Option.some t => Option.some t
      | Option.none => mroLookup rest k
    | Option.none => mroLookup rest k

/-! ### Type Validator (source lines 99-122) -/

/-- The loop of `ensure_types`: in declaration order, skip annotated
keys missing from the data (the warned, "should not happen" branch),
fail on the first value rejected by the type predicate, and otherwise
copy the value into the result. -/
def ensureTypesGo (ct : CheckPred) (data : List (String × Value)) :
    List (String × Ty) → List (String × Value) → Except Err (List (String × Value))
  | [], final => Except.ok final
  | (k, ty) :: rest, final =>
    match alGet? data k with
    | Option.none => ensureTypesGo ct data rest final
    | Option.some v =>
      if ct v ty then ensureTypesGo ct data rest (alInsert final k v)
      else Except.error (Err.invalidType k v ty)

/-- `ensure_types`. -/
def ensure_types (ct : CheckPred) (data : List (String × Value))
    (anns : List (String × Ty)) : Except Err (List (String × Value)) :=
  ensureTypesGo ct data anns []

/-! ### Recursive Resolver (source lines 212-290) -/

/-- The nested-load collaborator: `load_into_recurse` specialised to its
default `init`.  The resolver is written against this parameter and the
knot is tied by `load_into_recurse` below (fuel models the recursion). -/
abbrev Loader : Type := PyClass → Value → Except Err Value

/-- `[load_into_recurse(subtype, subvalue) for subvalue in value]`. -/
def loadSeq (rld : Loader) (c : PyClass) : List Value → Except Err (List Value)
  | [] => Except.ok []
  | v :: vs =>
    match rld c v with
    | Except.ok w =>
      match loadSeq rld c vs with
      | Except.ok ws => Except.ok (w :: ws)
      | Except.error e => Except.error e
    | Except.error e => Except.error e

/-- `{subkey: load_into_recurse(subvaluetype, subvalue) for ...}`:
values are loaded, keys are untouched (a Python dict's keys are
unique, so a per-entry rebuild is the comprehension). -/
def loadMapVals (rld : Loader) (c : PyClass) :
    List (String × Value) → Except Err (List (String × Value))
  | [] => Except.ok []
  | (k, v) :: rest =>
    match rld c v with
    | Except.ok w =>
      match loadMapVals rld c rest with
      | Except.ok ws => Except.ok ((k, w) :: ws)
      | Except.error e => Except.error e
    | Except.error e => Except.error e

/-- The union loop of `load_recursive` (source lines 260-265): every
custom-class member replaces the running value by its recursive load;
other members leave it alone. -/
def unionFold (rld : Loader) : List Ty → Value → Except Err Value
  | [], v => Except.ok v
  | a :: rest, v =>
    match a with
    | Ty.record c =>
      match rld c v with
      | Except.ok w => unionFold rld rest w
      | Except.error e => Except.error e
    | _ => unionFold rld rest v

/-- The present-in-data transformation of `load_recursive`'s loop body
(source lines 244-276): nested record types, sequences and mappings of
record types and `typing.Union`s containing record types are loaded
recursively; everything else — including a `|`-spelled union, whose
`typing.get_origin` is `types.UnionType` and not `typing.Union` — is
left unchanged. -/
def loadField (rld : Loader) (ty : Ty) (value : Value) : Except Err Value :=
  if isParameterized ty then
    match ty with
    | Ty.listT arg =>
      if isCustomCls arg then
        match arg, value with
        | Ty.record c, Value.list xs =>
          match loadSeq rld c xs with
          | Except.ok ws => Except.ok (Value.list ws)
          | Except.error e => Except.error e
        | _, _ => Except.error Err.pyErr
      else Except.ok value
    | Ty.dictT _ varg =>
      if isCustomCls varg then
        match varg, value with
        | Ty.record c, Value.dict entries =>
          match loadMapVals rld c entries with
          | Except.ok ws => Except.ok (Value.dict ws)
          | Except.error e => Except.error e
        | _, _ => Except.error Err.pyErr
      else Except.ok value
    | Ty.tUnion args =>
      if args.isEmpty then Except.ok value else unionFold rld args value
    | _ => Except.ok value
  else if isCustomCls ty then
    match ty with
    | Ty.record c => rld c value
    | _ => Except.ok value
  else Except.ok value

/-- One full iteration of `load_recursive`'s loop for a declared field:
present keys go through `loadField`; absent keys use the class's own
`__dict__` default, then the optional policy (`None`), and finally the
`ConfigErrorMissingKey` condition.  A `TypeError` escaping `is_optional`
propagates. -/
def resolveField (rld : Loader) (cls : PyClass) (data : List (String × Value))
    (k : String) (ty : Ty) : Except Err Value :=
  match alGet? data k with
  | Option.some v => loadField rld ty v
  | Option.none =>
    match alGet? (PyClass.ownDict cls) k with
    | Option.some d => Except.ok d
    | Option.none =>
      match isOptional ty with
      | Except.ok true => Except.ok Value.none
      | Except.ok false => Except.error (Err.missingKey k cls ty)
      | Except.error e => Except.error e

/-- The loop of `load_recursive`, building `updated` field by field. -/
def loadRecursiveGo (rld : Loader) (cls : PyClass) (data : List (String × Value)) :
    List (String × Ty) → List (String × Value) → Except Err (List (String × Value))
  | [], updated => Except.ok updated
  | (k, ty) :: rest, updated =>
    match resolveField rld cls data k ty with
    | Except.ok v => loadRecursiveGo rld cls data rest (alInsert updated k v)
    | Except.error e => Except.error e

/-- `load_recursive`. -/
def load_recursive (rld : Loader) (cls : PyClass) (data : List (String × Value))
    (anns : List (String × Ty)) : Except Err (List (String × Value)) :=
  loadRecursiveGo rld cls data anns []

/-! ### Pipeline (source lines 311-359) -/

/-- `_check_and_convert_data`: normalize the keys, resolve the
annotation tree, validate the result.  A non-dict `data` raises
(`data.items()` on it fails) — the recursive calls do pass arbitrary
nested raw values here. -/
def checkAndConvertData (ct : CheckPred) (rld : Loader) (cls : PyClass)
    (data : Value) (ex : List String) : Except Err (List (String × Value)) :=
  match data with
  | Value.dict items =>
    match load_recursive rld cls (convert_config items) (all_annotations cls ex) with
    | Except.ok loaded => ensure_types ct loaded (all_annotations cls ex)
    | Except.error e => Except.error e
  | _ => Except.error Err.pyErr

/-- `load_into_recurse`: fresh construction.  For a dataclass the merged
mapping (`to_load |= init`, init winning) becomes the instance's field
set in one constructor step; otherwise the instance is constructed first
(`cls(**init)` — a plain record class takes no constructor arguments, so
a non-empty `init` raises `TypeError`) and the resolved fields are
injected into its `__dict__`.  Fuel bounds the recursion depth. -/
def load_into_recurse (ct : CheckPred) :
    Nat → PyClass → Value → Option (List (String × Value)) → Except Err Value
  | 0, _, _, _ => Except.error Err.noFuel
  | Nat.succ fuel, cls, data, init =>
    let initd := init.getD []
    if PyClass.isDataclass cls then
      match checkAndConvertData ct (fun c v => load_into_recurse ct fuel c v Option.none)
          cls data (alKeys initd) with
      | Except.ok toLoad =>
        Except.ok (Value.inst (PyClass.name cls) (dictUpdate toLoad initd))
      | Except.error e => Except.error e
    else
      if initd.isEmpty then
        match checkAndConvertData ct (fun c v => load_into_recurse ct fuel c v Option.none)
            cls data [] with
        | Except.ok toLoad => Except.ok (Value.inst (PyClass.name cls) toLoad)
        | Except.error e => Except.error e
      else Except.error Err.pyErr

/-- `load_into_existing`: augmentation of an existing instance.  The
`init is not None` usage check comes before everything else; fields the
instance already carries are excluded from collection, and the resolved
fields are written into its `__dict__`. -/
def load_into_existing (ct : CheckPred) (fuel : Nat) (inst : Value) (cls : PyClass)
    (data : Value) (init : Option (List (String × Value))) : Except Err Value :=
  match init with
  | Option.some _ => Except.error Err.valueError
  | Option.none =>
    match inst, data with
    | Value.inst iname fields, Value.dict items =>
      match load_recursive (fun c v => load_into_recurse ct fuel c v Option.none)
          cls (convert_config items) (all_annotations cls (alKeys fields)) with
      | Except.ok loaded =>
        match ensure_types ct loaded (all_annotations cls (alKeys fields)) with
        | Except.ok final => Except.ok (Value.inst iname (dictUpdate fields final))
        | Except.error e => Except.error e
      | Except.error e => Except.error e
    | _, _ => Except.error Err.pyErr

/-! ### Data location (source lines 31-83) -/

/-- `key.split(".")`, with Python `str.split` semantics
(`"".split(".") == [""]`, empty segments kept). -/
def splitDotsGo : List Char → List Char → List String
  | [], acc => [String.mk acc.reverse]
  | c :: rest, acc =>
    if c = '.' then String.mk acc.reverse :: splitDotsGo rest []
    else splitDotsGo rest (c :: acc)

/-- `key.split(".")`. -/
def splitDots (s : String) : List String :=
  splitDotsGo s.data []

/-- The traversal loop of `_data_for_nested_key`: `raw = raw[part]` for
each dot-separated part; a missing key raises `KeyError`, subscripting a
non-dict raises `TypeError`. -/
def dataForNestedKeyGo : List String → Value → Except Err Value
  | [], raw => Except.ok raw
  | p :: rest, raw =>
    match raw with
    | Value.dict entries =>
      match alGet? entries p with
      | Option.some v => dataForNestedKeyGo rest v
      | Option.none => Except.error Err.pyErr
    | _ => Except.error Err.pyErr

/-- `_data_for_nested_key`. -/
def data_for_nested_key (key : String) (raw : Value) : Except Err Value :=
  dataForNestedKeyGo (splitDots key) raw

/-- Modelled from the spec: the name-casing collaborator
`camel_to_snake` lives in the repository's helpers module, which is not
among the provided sources; the spec describes it only as deriving a
snake_case lookup key from the class name (out of core scope).  The
claims settled against it do not depend on the exact casing rule. -/
def camelToSnakeGo : List Char → Bool → List Char
  | [], _ => []
  | c :: rest, first =>
    if c.isUpper && !first then '_' :: c.toLower :: camelToSnakeGo rest false
    else c.toLower :: camelToSnakeGo rest false

/-- Modelled from the spec: see `camelToSnakeGo`. -/
def camel_to_snake (s : String) : String :=
  String.mk (camelToSnakeGo s.data true)

/-- `_guess_key`. -/
def guess_key (clsname : String) : String :=
  camel_to_snake clsname

/-- `_load_data` on an already-parsed mapping (the TOML file branch is
out of core scope and reduces to its parsed dict before the empty-data
guard): empty data short-circuits to `{}`; otherwise a missing key falls
back to the sole top-level key, then to the class-name guess; a truthy
key (non-`None`, non-empty) is traversed, everything else returns the
whole mapping unscoped. -/
def load_data (data : List (String × Value)) (key : Option String)
    (classname : Option String) : Except Err Value :=
  match data with
  | [] => Except.ok (Value.dict [])
  | (k0, v0) :: rest =>
    let d := (k0, v0) :: rest
    let key1 : Option String :=
      match key with
      | Option.some k => Option.some k
      | Option.none =>
        if rest.isEmpty then Option.some k0
        else
          match classname with
          | Option.some cn => Option.some (guess_key cn)
          | Option.none => Option.none
    match key1 with
    | Option.some k =>
      if k = "" then Except.ok (Value.dict d) else data_for_nested_key k (Value.dict d)
    | Option.none => Except.ok (Value.dict d)

/-! ### Public entry points (source lines 388-439) -/

/-- `load_into_class`: data location followed by fresh construction. -/
def load_into_class (ct : CheckPred) (fuel : Nat) (cls : PyClass)
    (data : List (String × Value)) (key : Option String)
    (init : Option (List (String × Value))) : Except Err Value :=
  match load_data data key (Option.some (PyClass.name cls)) with
  | Except.ok toLoad => load_into_recurse ct fuel cls toLoad init
  | Except.error e => Except.error e

/-- `load_into_instance`: data location followed by augmentation; the
class is the instance's `__class__`. -/
def load_into_instance (ct : CheckPred) (fuel : Nat) (inst : Value) (cls : PyClass)
    (data : List (String × Value)) (key : Option String)
    (init : Option (List (String × Value))) : Except Err Value :=
  match load_data data key (Option.some (PyClass.name cls)) with
  | Except.ok toLoad => load_into_existing ct fuel inst cls toLoad init
  | Except.error e => Except.error e

/-- The target of `load_into`: either a class or an existing instance
paired with its `__class__` (the source's `isinstance(cls, type)`
dispatch). -/
inductive Target : Type where
  | typeTarget : PyClass → Target
  | instTarget : Value → PyClass → Target

/-- `load_into`. -/
def load_into (ct : CheckPred) (fuel : Nat) (target : Target)
    (data : List (String × Value)) (key : Option String)
    (init : Option (List (String × Value))) : Except Err Value :=
  match target with
  | Target.instTarget i c => load_into_instance ct fuel i c data key init
  | Target.typeTarget c => load_into_class ct fuel c data key init

/-! ### Concrete sample data used by witnesses and counterexamples -/

/-- A type predicate accepting everything (the theorems about the
validator quantify over the predicate; witnesses fix one). -/
def ctTrue : CheckPred := fun _ _ => true

/-- `class Inner: v: int`. -/
def innerCls : PyClass :=
  PyClass.mk "Inner" [MroEntry.mk "Inner" (Option.some [("v", Ty.builtin "int")]) []] false

/-- `class Item: id: int`. -/
def itemCls : PyClass :=
  PyClass.mk "Item" [MroEntry.mk "Item" (Option.some [("id", Ty.builtin "int")]) []] false

/-- `class Cfg: x: list[str]` — a required field with a parameterized,
non-optional descriptor and no default. -/
def cfgCls : PyClass :=
  PyClass.mk "Cfg" [MroEntry.mk "Cfg" (Option.some [("x", Ty.listT (Ty.builtin "str"))]) []] false

/-- `class Foo: pass`. -/
def fooCls : PyClass :=
  PyClass.mk "Foo" [MroEntry.mk "Foo" Option.none []] false

/-- `class Named: name: str`. -/
def nameCls : PyClass :=
  PyClass.mk "Named" [MroEntry.mk "Named" (Option.some [("name", Ty.builtin "str")]) []] false

/-- A concrete nested loader with enough fuel for the shallow sample
classes above. -/
def ldStub : Loader := fun c v => load_into_recurse ctTrue 3 c v Option.none

/-- A concrete type predicate accepting exactly the integer values. -/
def ctInt : CheckPred := fun v _ =>
  match v with
  | Value.int _ => true
  | _ => false

/-- Raw sequence input for the sequence-of-records witness. -/
def itemsRaw : List Value :=
  [Value.dict [("id", Value.int 1)], Value.dict [("id", Value.int 2)]]

/-- Raw mapping input for the mapping-of-records witness. -/
def mapRaw : List (String × Value) :=
  [("a", Value.dict [("id", Value.int 3)])]

/-- Data mapping binding both raw containers. -/
def c7Data : List (String × Value) :=
  [("items", Value.list itemsRaw), ("m", Value.dict mapRaw)]

/-! ### Association-list lemmas -/

theorem alGet?_ne_none_iff {α : Type} (l : List (String × α)) (k : String) :
    alGet? l k ≠ Option.none ↔ k ∈ alKeys l := by
  induction l with
  | nil => simp [alGet?, alKeys]
  | cons p rest ih =>
    by_cases h : p.1 = k
    · subst h; simp [alGet?, alKeys]
    · simp only [alGet?, alKeys, List.map_cons, List.mem_cons, if_neg h]
      rw [ih]
      simp [alKeys]
      intro hk
      exact absurd hk.symm h

theorem alInsert_cons_pos {α : Type} (p : String × α) (rest : List (String × α))
    (k : String) (v : α) (h : p.1 = k) :
    alInsert (p :: rest) k v = (p.1, v) :: rest := by
  simp only [alInsert]
  rw [if_pos h]

theorem alInsert_cons_neg {α : Type} (p : String × α) (rest : List (String × α))
    (k : String) (v : α) (h : ¬p.1 = k) :
    alInsert (p :: rest) k v = p :: alInsert rest k v := by
  simp only [alInsert]
  rw [if_neg h]

theorem alGet?_cons_pos {α : Type} (p : String × α) (rest : List (String × α))
    (k : String) (h : p.1 = k) : alGet? (p :: rest) k = Option.some p.2 := by
  simp only [alGet?]
  rw [if_pos h]

theorem alGet?_cons_neg {α : Type} (p : String × α) (rest : List (String × α))
    (k : String) (h : ¬p.1 = k) : alGet? (p :: rest) k = alGet? rest k := by
  simp only [alGet?]
  rw [if_neg h]

theorem mem_alKeys_alInsert {α : Type} (l : List (String × α)) (k : String) (v : α)
    (a : String) : a ∈ alKeys (alInsert l k v) ↔ a ∈ alKeys l ∨ a = k := by
  induction l with
  | nil => simp [alInsert, alKeys]
  | cons p rest ih =>
    by_cases h : p.1 = k
    · rw [alInsert_cons_pos p rest k v h]
      subst h
      simp only [alKeys, List.map_cons, List.mem_cons]
      tauto
    · rw [alInsert_cons_neg p rest k v h]
      simp only [alKeys, List.map_cons, List.mem_cons] at ih ⊢
      rw [ih]
      tauto

theorem alGet?_alInsert_self {α : Type} (l : List (String × α)) (k : String) (v : α) :
    alGet? (alInsert l k v) k = Option.some v := by
  induction l with
  | nil => simp [alInsert, alGet?]
  | cons p rest ih =>
    by_cases h : p.1 = k
    · rw [alInsert_cons_pos p rest k v h, alGet?_cons_pos (p.1, v) rest k h]
    · rw [alInsert_cons_neg p rest k v h, alGet?_cons_neg p (alInsert rest k v) k h, ih]

theorem alGet?_alInsert_ne {α : Type} (l : List (String × α)) (k : String) (v : α)
    (a : String) (hne : a ≠ k) : alGet? (alInsert l k v) a = alGet? l a := by
  induction l with
  | nil =>
    simp only [alInsert, alGet?]
    rw [if_neg (fun h => hne h.symm)]
  | cons p rest ih =>
    by_cases h : p.1 = k
    · rw [alInsert_cons_pos p rest k v h]
      have hpa : ¬p.1 = a := fun hc => hne (hc ▸ h)
      rw [alGet?_cons_neg (p.1, v) rest a hpa, alGet?_cons_neg p rest a hpa]
    · rw [alInsert_cons_neg p rest k v h]
      by_cases ha : p.1 = a
      · rw [alGet?_cons_pos p (alInsert rest k v) a ha, alGet?_cons_pos p rest a ha]
      · rw [alGet?_cons_neg p (alInsert rest k v) a ha, alGet?_cons_neg p rest a ha, ih]

/-! ### Annotation Collector lemmas -/

theorem chainGet_filterMap_eq_mroLookup (mro : List MroEntry) (k : String) :
    chainGet (mro.filterMap MroEntry.annots) k = mroLookup mro k := by
  induction mro with
  | nil => rfl
  | cons e rest ih =>
    cases h : MroEntry.annots e with
    | none =>
      rw [List.filterMap_cons_none h]
      simp only [mroLookup, h]
      exact ih
    | some anns =>
      rw [List.filterMap_cons_some h]
      simp only [chainGet, mroLookup, h]
      cases alGet? anns k with
      | none => exact ih
      | some t => rfl

theorem chainGet_annMaps_eq_mroLookup (cls : PyClass) (k : String) :
    chainGet (annMaps cls) k = mroLookup (PyClass.mro cls) k :=
  chainGet_filterMap_eq_mroLookup (PyClass.mro cls) k

theorem alGet?_keyed_filterMap_of_not_mem (g : String → Option Ty) (ks : List String)
    (k : String) (hk : k ∉ ks) :
    alGet? (ks.filterMap fun a => (g a).map fun t => (a, t)) k = Option.none := by
  induction ks with
  | nil => rfl
  | cons a rest ih =>
    have hka : ¬a = k := fun hc => hk (hc ▸ List.mem_cons_self a rest)
    have hkr : k ∉ rest := fun hc => hk (List.mem_cons_of_mem a hc)
    cases hg : g a with
    | none =>
      rw [List.filterMap_cons_none (by rw [hg]; rfl)]
      exact ih hkr
    | some t =>
      rw [List.filterMap_cons_some (by rw [hg]; rfl)]
      rw [alGet?_cons_neg (a, t) _ k hka]
      exact ih hkr

theorem alGet?_keyed_filterMap (g : String → Option Ty) (ks : List String) (k : String) :
    alGet? (ks.filterMap fun a => (g a).map fun t => (a, t)) k
      = if k ∈ ks then g k else Option.none := by
  induction ks with
  | nil => rfl
  | cons a rest ih =>
    by_cases hka : a = k
    · subst hka
      rw [if_pos (List.mem_cons_self a rest)]
      cases hg : g a with
      | none =>
        rw [List.filterMap_cons_none (by rw [hg]; rfl), ih]
        by_cases hm : a ∈ rest
        · rw [if_pos hm, hg]
        · rw [if_neg hm]
      | some t =>
        rw [List.filterMap_cons_some (by rw [hg]; rfl)]
        rw [alGet?_cons_pos (a, t) _ a rfl]
    · have hmem : (k ∈ a :: rest) ↔ (k ∈ rest) := by
        simp only [List.mem_cons]
        constructor
        · rintro (h | h)
          · exact absurd h.symm hka
          · exact h
        · exact Or.inr
      cases hg : g a with
      | none =>
        rw [List.filterMap_cons_none (by rw [hg]; rfl), ih]
        exact (if_congr hmem rfl rfl).symm
      | some t =>
        rw [List.filterMap_cons_some (by rw [hg]; rfl)]
        rw [alGet?_cons_neg (a, t) _ k hka, ih]
        exact (if_congr hmem rfl rfl).symm

theorem alGet?_filter_notin (l : List (String × Ty)) (ex : List String) (k : String) :
    alGet? (l.filter fun p => !decide (p.1 ∈ ex)) k
      = if k ∈ ex then Option.none else alGet? l k := by
  induction l with
  | nil =>
    cases hk : decide (k ∈ ex) <;> simp_all [alGet?]
  | cons p rest ih =>
    by_cases hp : p.1 ∈ ex
    · rw [List.filter_cons_of_neg (by simp [hp])]
      by_cases hpk : p.1 = k
      · subst hpk
        rw [if_pos hp] at ih ⊢
        exact ih
      · rw [ih, alGet?_cons_neg p rest k hpk]
    · rw [List.filter_cons_of_pos (by simp [hp])]
      by_cases hpk : p.1 = k
      · subst hpk
        rw [if_neg hp]
        rw [alGet?_cons_pos p _ p.1 rfl, alGet?_cons_pos p rest p.1 rfl]
      · rw [alGet?_cons_neg p _ k hpk, alGet?_cons_neg p rest k hpk, ih]

theorem mem_addKeys (m : List (String × Ty)) (acc : List String) (k : String) :
    k ∈ addKeys acc m ↔ k ∈ acc ∨ k ∈ alKeys m := by
  induction m generalizing acc with
  | nil => simp [addKeys, alKeys]
  | cons p rest ih =>
    simp only [addKeys]
    rw [ih]
    by_cases hp : p.1 ∈ acc
    · rw [if_pos hp]
      simp only [alKeys, List.map_cons, List.mem_cons]
      constructor
      · rintro (h | h)
        · exact Or.inl h
        · exact Or.inr (Or.inr h)
      · rintro (h | h | h)
        · exact Or.inl h
        · exact Or.inl (h ▸ hp)
        · exact Or.inr h
    · rw [if_neg hp]
      simp only [alKeys, List.map_cons, List.mem_cons, List.mem_append,
        List.mem_singleton]
      tauto

theorem mem_chainKeysGo (ms : List (List (String × Ty))) (acc : List String) (k : String) :
    k ∈ chainKeysGo acc ms ↔ k ∈ acc ∨ ∃ m ∈ ms, k ∈ alKeys m := by
  induction ms generalizing acc with
  | nil => simp [chainKeysGo]
  | cons m rest ih =>
    simp only [chainKeysGo]
    rw [ih, mem_addKeys]
    simp only [List.mem_cons]
    constructor
    · rintro ((h | h) | ⟨m', hm', h⟩)
      · exact Or.inl h
      · exact Or.inr ⟨m, Or.inl rfl, h⟩
      · exact Or.inr ⟨m', Or.inr hm', h⟩
    · rintro (h | ⟨m', hm' | hm', h⟩)
      · exact Or.inl (Or.inl h)
      · exact Or.inl (Or.inr (hm' ▸ h))
      · exact Or.inr ⟨m', hm', h⟩

theorem chainGet_ne_none_iff (ms : List (List (String × Ty))) (k : String) :
    chainGet ms k ≠ Option.none ↔ ∃ m ∈ ms, k ∈ alKeys m := by
  induction ms with
  | nil => simp [chainGet]
  | cons m rest ih =>
    simp only [chainGet]
    cases hm : alGet? m k with
    | some t =>
      simp only [ne_eq, reduceCtorEq, not_false_eq_true, true_iff]
      exact ⟨m, List.mem_cons_self m rest, (alGet?_ne_none_iff m k).mp (by simp [hm])⟩
    | none =>
      rw [ih]
      constructor
      · rintro ⟨m', hm', h⟩
        exact ⟨m', List.mem_cons_of_mem m hm', h⟩
      · rintro ⟨m', hm', h⟩
        rcases List.mem_cons.mp hm' with hh | hh
        · subst hh
          exact absurd hm ((alGet?_ne_none_iff m' k).mpr h)
        · exact ⟨m', hh, h⟩

theorem mem_chainKeys_iff (ms : List (List (String × Ty))) (k : String) :
    k ∈ chainKeys ms ↔ chainGet ms k ≠ Option.none := by
  unfold chainKeys
  rw [mem_chainKeysGo, chainGet_ne_none_iff]
  simp [List.mem_reverse]

theorem all_annotations_get (cls : PyClass) (ex : List String) (k : String) :
    alGet? (all_annotations cls ex) k
      = if k ∈ ex then Option.none else mroLookup (PyClass.mro cls) k := by
  unfold all_annotations allAnnotationsChain
  rw [alGet?_filter_notin, alGet?_keyed_filterMap]
  by_cases hex : k ∈ ex
  · rw [if_pos hex, if_pos hex]
  · rw [if_neg hex, if_neg hex]
    by_cases hck : k ∈ chainKeys (annMaps cls)
    · rw [if_pos hck, chainGet_annMaps_eq_mroLookup]
    · rw [if_neg hck]
      have h := (not_iff_not.mpr (mem_chainKeys_iff (annMaps cls) k)).mp hck
      rw [not_not] at h
      rw [← chainGet_annMaps_eq_mroLookup, h]

/-! ### Type Validator lemmas -/

theorem ensureTypesGo_ok_checks (ct : CheckPred) (data : List (String × Value))
    (anns : List (String × Ty)) :
    ∀ acc final, ensureTypesGo ct data anns acc = Except.ok final →
    ∀ p ∈ anns, ∀ w, alGet? data p.1 = Option.some w → ct w p.2 = true := by
  induction anns with
  | nil => intro acc final _ p hp; exact absurd hp (List.not_mem_nil p)
  | cons q rest ih =>
    intro acc final hok p hp w hw
    rcases List.mem_cons.mp hp with hh | hh
    · subst hh
      simp only [ensureTypesGo] at hok
      simp only [hw] at hok
      by_cases hct : ct w p.2
      · exact hct
      · rw [if_neg hct] at hok
        exact absurd hok (by simp)
    · simp only [ensureTypesGo] at hok
      cases hq : alGet? data q.1 with
      | none =>
        simp only [hq] at hok
        exact ih acc final hok p hh w hw
      | some vq =>
        simp only [hq] at hok
        by_cases hct : ct vq q.2
        · rw [if_pos hct] at hok
          exact ih _ final hok p hh w hw
        · rw [if_neg hct] at hok
          exact absurd hok (by simp)

theorem ensureTypesGo_ok_values (ct : CheckPred) (data : List (String × Value))
    (anns : List (String × Ty)) :
    ∀ acc final,
    (∀ k w, alGet? acc k = Option.some w → alGet? data k = Option.some w) →
    ensureTypesGo ct data anns acc = Except.ok final →
    ∀ k w, alGet? final k = Option.some w → alGet? data k = Option.some w := by
  induction anns with
  | nil =>
    intro acc final hacc hok
    simp only [ensureTypesGo] at hok
    cases hok
    exact hacc
  | cons q rest ih =>
    intro acc final hacc hok
    simp only [ensureTypesGo] at hok
    cases hq : alGet? data q.1 with
    | none =>
      simp only [hq] at hok
      exact ih acc final hacc hok
    | some vq =>
      simp only [hq] at hok
      by_cases hct : ct vq q.2
      · rw [if_pos hct] at hok
        refine ih _ final ?_ hok
        intro k w hk
        by_cases hkq : k = q.1
        · subst hkq
          rw [alGet?_alInsert_self] at hk
          cases hk
          exact hq
        · rw [alGet?_alInsert_ne _ _ _ _ hkq] at hk
          exact hacc k w hk
      · rw [if_neg hct] at hok
        exact absurd hok (by simp)

theorem ensureTypesGo_keys_mono (ct : CheckPred) (data : List (String × Value))
    (anns : List (String × Ty)) :
    ∀ acc final, ensureTypesGo ct data anns acc = Except.ok final →
    ∀ a, a ∈ alKeys acc → a ∈ alKeys final := by
  induction anns with
  | nil =>
    intro acc final hok
    simp only [ensureTypesGo] at hok
    cases hok
    exact fun a h => h
  | cons q rest ih =>
    intro acc final hok a ha
    simp only [ensureTypesGo] at hok
    cases hq : alGet? data q.1 with
    | none =>
      simp only [hq] at hok
      exact ih acc final hok a ha
    | some vq =>
      simp only [hq] at hok
      by_cases hct : ct vq q.2
      · rw [if_pos hct] at hok
        exact ih _ final hok a ((mem_alKeys_alInsert acc q.1 vq a).mpr (Or.inl ha))
      · rw [if_neg hct] at hok
        exact absurd hok (by simp)

theorem ensureTypesGo_covers (ct : CheckPred) (data : List (String × Value))
    (anns : List (String × Ty)) :
    ∀ acc final, ensureTypesGo ct data anns acc = Except.ok final →
    ∀ p ∈ anns, alGet? data p.1 ≠ Option.none → p.1 ∈ alKeys final := by
  induction anns with
  | nil => intro acc final _ p hp; exact absurd hp (List.not_mem_nil p)
  | cons q rest ih =>
    intro acc final hok p hp hpresent
    simp only [ensureTypesGo] at hok
    rcases List.mem_cons.mp hp with hh | hh
    · subst hh
      cases hq : alGet? data p.1 with
      | none => exact absurd hq hpresent
      | some vq =>
        simp only [hq] at hok
        by_cases hct : ct vq p.2
        · rw [if_pos hct] at hok
          exact ensureTypesGo_keys_mono ct data rest _ final hok p.1
            ((mem_alKeys_alInsert acc p.1 vq p.1).mpr (Or.inr rfl))
        · rw [if_neg hct] at hok
          exact absurd hok (by simp)
    · cases hq : alGet? data q.1 with
      | none =>
        simp only [hq] at hok
        exact ih acc final hok p hh hpresent
      | some vq =>
        simp only [hq] at hok
        by_cases hct : ct vq q.2
        · rw [if_pos hct] at hok
          exact ih _ final hok p hh hpresent
        · rw [if_neg hct] at hok
          exact absurd hok (by simp)

theorem ensureTypesGo_keys_sub (ct : CheckPred) (data : List (String × Value))
    (anns : List (String × Ty)) :
    ∀ acc final, ensureTypesGo ct data anns acc = Except.ok final →
    ∀ a, a ∈ alKeys final → a ∈ alKeys acc ∨ a ∈ anns.map Prod.fst := by
  induction anns with
  | nil =>
    intro acc final hok a ha
    simp only [ensureTypesGo] at hok
    cases hok
    exact Or.inl ha
  | cons q rest ih =>
    intro acc final hok a ha
    simp only [ensureTypesGo] at hok
    cases hq : alGet? data q.1 with
    | none =>
      simp only [hq] at hok
      rcases ih acc final hok a ha with h | h
      · exact Or.inl h
      · exact Or.inr (List.mem_cons_of_mem _ h)
    | some vq =>
      simp only [hq] at hok
      by_cases hct : ct vq q.2
      · rw [if_pos hct] at hok
        rcases ih _ final hok a ha with h | h
        · rcases (mem_alKeys_alInsert acc q.1 vq a).mp h with h2 | h2
          · exact Or.inl h2
          · exact Or.inr (h2 ▸ List.mem_cons_self _ _)
        · exact Or.inr (List.mem_cons_of_mem _ h)
      · rw [if_neg hct] at hok
        exact absurd hok (by simp)

theorem ensureTypesGo_first_fail (ct : CheckPred) (data : List (String × Value))
    (k : String) (ty : Ty) (v : Value)
    (hv : alGet? data k = Option.some v) (hfail : ct v ty = false) :
    ∀ pre, (∀ p ∈ pre, ∀ w, alGet? data p.1 = Option.some w → ct w p.2 = true) →
    ∀ post acc, ensureTypesGo ct data (pre ++ (k, ty) :: post) acc
      = Except.error (Err.invalidType k v ty) := by
  intro pre
  induction pre with
  | nil =>
    intro _ post acc
    have hstep : ensureTypesGo ct data ((k, ty) :: post) acc
        = if ct v ty = true then ensureTypesGo ct data post (alInsert acc k v)
          else Except.error (Err.invalidType k v ty) := by
      simp only [ensureTypesGo, hv]
    rw [List.nil_append, hstep, if_neg (by simp [hfail])]
  | cons q rest ih =>
    intro hpass post acc
    rw [List.cons_append]
    cases hq : alGet? data q.1 with
    | none =>
      have hstep : ensureTypesGo ct data (q :: (rest ++ (k, ty) :: post)) acc
          = ensureTypesGo ct data (rest ++ (k, ty) :: post) acc := by
        simp only [ensureTypesGo, hq]
      rw [hstep]
      exact ih (fun p hp => hpass p (List.mem_cons_of_mem q hp)) post acc
    | some vq =>
      have hck := hpass q (List.mem_cons_self q rest) vq hq
      have hstep : ensureTypesGo ct data (q :: (rest ++ (k, ty) :: post)) acc
          = ensureTypesGo ct data (rest ++ (k, ty) :: post) (alInsert acc q.1 vq) := by
        simp only [ensureTypesGo, hq]
        rw [if_pos hck]
      rw [hstep]
      exact ih (fun p hp => hpass p (List.mem_cons_of_mem q hp)) post _

/-! ### Recursive Resolver lemmas -/

theorem loadRecursiveGo_keys (rld : Loader) (cls : PyClass)
    (data : List (String × Value)) (anns : List (String × Ty)) :
    ∀ acc updated, loadRecursiveGo rld cls data anns acc = Except.ok updated →
    ∀ a, a ∈ alKeys updated ↔ a ∈ alKeys acc ∨ a ∈ anns.map Prod.fst := by
  induction anns with
  | nil =>
    intro acc updated hok a
    simp only [loadRecursiveGo] at hok
    cases hok
    simp
  | cons q rest ih =>
    intro acc updated hok a
    simp only [loadRecursiveGo] at hok
    cases hr : resolveField rld cls data q.1 q.2 with
    | error e =>
      simp only [hr] at hok
      exact absurd hok (by simp)
    | ok v =>
      simp only [hr] at hok
      rw [ih _ updated hok a, mem_alKeys_alInsert]
      simp only [List.map_cons, List.mem_cons]
      tauto

theorem unionFold_no_record (rld : Loader) (args : List Ty) (v : Value)
    (h : ∀ a ∈ args, isCustomCls a = false) : unionFold rld args v = Except.ok v := by
  induction args with
  | nil => rfl
  | cons a rest ih =>
    cases a with
    | record c =>
      have := h (Ty.record c) (List.mem_cons_self _ _)
      simp [isCustomCls, tyIsType, isBuiltinType, isFromOtherTomlSupportedModule,
        isFromTypesOrTyping] at this
    | builtin n =>
      exact ih fun x hx => h x (List.mem_cons_of_mem _ hx)
    | tomlMod n =>
      exact ih fun x hx => h x (List.mem_cons_of_mem _ hx)
    | noneLit =>
      exact ih fun x hx => h x (List.mem_cons_of_mem _ hx)
    | listT t =>
      exact ih fun x hx => h x (List.mem_cons_of_mem _ hx)
    | dictT t1 t2 =>
      exact ih fun x hx => h x (List.mem_cons_of_mem _ hx)
    | tUnion ts =>
      exact ih fun x hx => h x (List.mem_cons_of_mem _ hx)
    | pUnion ts =>
      exact ih fun x hx => h x (List.mem_cons_of_mem _ hx)

theorem unionFold_single_record (rld : Loader) (pre post : List Ty) (c : PyClass)
    (v : Value) (hpre : ∀ a ∈ pre, isCustomCls a = false)
    (hpost : ∀ a ∈ post, isCustomCls a = false) :
    unionFold rld (pre ++ Ty.record c :: post) v = rld c v := by
  induction pre generalizing v with
  | nil =>
    simp only [List.nil_append, unionFold]
    cases hr : rld c v with
    | ok w => exact unionFold_no_record rld post w hpost
    | error e => rfl
  | cons a rest ih =>
    have hrest : ∀ x ∈ rest, isCustomCls x = false :=
      fun x hx => hpre x (List.mem_cons_of_mem _ hx)
    cases a with
    | record c2 =>
      have := hpre (Ty.record c2) (List.mem_cons_self _ _)
      simp [isCustomCls, tyIsType, isBuiltinType, isFromOtherTomlSupportedModule,
        isFromTypesOrTyping] at this
    | builtin n => exact ih v hrest
    | tomlMod n => exact ih v hrest
    | noneLit => exact ih v hrest
    | listT t => exact ih v hrest
    | dictT t1 t2 => exact ih v hrest
    | tUnion ts => exact ih v hrest
    | pUnion ts => exact ih v hrest

theorem loadSeq_ok (rld : Loader) (c : PyClass) :
    ∀ xs ys, loadSeq rld c xs = Except.ok ys →
    ys.length = xs.length ∧
    ∀ i (h1 : i < xs.length) (h2 : i < ys.length),
      rld c (xs.get ⟨i, h1⟩) = Except.ok (ys.get ⟨i, h2⟩) := by
  intro xs
  induction xs with
  | nil =>
    intro ys hok
    simp only [loadSeq] at hok
    cases hok
    exact ⟨rfl, fun i h1 _ => absurd h1 (Nat.not_lt_zero i)⟩
  | cons v vs ih =>
    intro ys hok
    simp only [loadSeq] at hok
    cases hv : rld c v with
    | error e => simp only [hv] at hok; exact absurd hok (by simp)
    | ok w =>
      simp only [hv] at hok
      cases hvs : loadSeq rld c vs with
      | error e => simp only [hvs] at hok; exact absurd hok (by simp)
      | ok ws =>
        simp only [hvs] at hok
        cases hok
        rcases ih ws hvs with ⟨hlen, hpt⟩
        refine ⟨by simp [hlen], ?_⟩
        intro i h1 h2
        cases i with
        | zero => exact hv
        | succ j =>
          have hj1 : j < vs.length := Nat.lt_of_succ_lt_succ h1
          have hj2 : j < ws.length := Nat.lt_of_succ_lt_succ h2
          simpa using hpt j hj1 hj2

theorem loadMapVals_ok (rld : Loader) (c : PyClass) :
    ∀ es fs, loadMapVals rld c es = Except.ok fs →
    fs.map Prod.fst = es.map Prod.fst ∧
    ∀ i (h1 : i < es.length) (h2 : i < fs.length),
      rld c ((es.get ⟨i, h1⟩).2) = Except.ok ((fs.get ⟨i, h2⟩).2) := by
  intro es
  induction es with
  | nil =>
    intro fs hok
    simp only [loadMapVals] at hok
    cases hok
    exact ⟨rfl, fun i h1 _ => absurd h1 (Nat.not_lt_zero i)⟩
  | cons e rest ih =>
    intro fs hok
    simp only [loadMapVals] at hok
    cases hv : rld c e.2 with
    | error er =>
      simp only [hv] at hok
      exact absurd hok (by simp)
    | ok w =>
      simp only [hv] at hok
      cases hrest : loadMapVals rld c rest with
      | error er => simp only [hrest] at hok; exact absurd hok (by simp)
      | ok ws =>
        simp only [hrest] at hok
        cases hok
        rcases ih ws hrest with ⟨hkeys, hpt⟩
        refine ⟨by simp [hkeys], ?_⟩
        intro i h1 h2
        cases i with
        | zero => exact hv
        | succ j =>
          have hj1 : j < rest.length := Nat.lt_of_succ_lt_succ h1
          have hj2 : j < ws.length := Nat.lt_of_succ_lt_succ h2
          simpa using hpt j hj1 hj2

/-! ### Key Normalizer lemma -/

theorem convert_config_drop_none (l1 l2 : List (String × Value)) (k : String) :
    convert_config (l1 ++ (k, Value.none) :: l2) = convert_config (l1 ++ l2) := by
  unfold convert_config
  rw [List.foldl_append, List.foldl_append, List.foldl_cons]

/-! ### Claim theorems -/

/-- C1: the claim states that a declared field absent from the
normalized data resolves by the precedence class-default, then
optional-`None`, then `ConfigErrorMissingKey`.  The code instead lets a
`TypeError` escape `is_optional` for a required field whose descriptor
is a bare parameterized generic such as `list[str]` (contradicting
`is_optional`'s own docstring, which promises `list[str] -> False`):
loading `class Cfg: x: list[str]` from `{}` raises that `TypeError`
rather than the claimed MissingKey condition. -/
theorem c1_missing_required_parameterized_raises :
    load_into_recurse ctTrue 5 cfgCls (Value.dict []) Option.none = Except.error Err.pyErr
  ∧ Err.pyErr ≠ Err.missingKey "x" cfgCls (Ty.listT (Ty.builtin "str")) :=
  ⟨rfl, fun h => Err.noConfusion h⟩

/-- C2 counterexample: for a `|`-spelled union with exactly one
record-type variant and the key present, the resolver does **not**
recursively load the value — the raw dict is left unchanged even though
the recursive load of that variant exists and differs. -/
theorem c2_counterexample_pipe_union_not_loaded :
    resolveField ldStub cfgCls [("x", Value.dict [("v", Value.int 1)])] "x"
        (Ty.pUnion [Ty.record innerCls, Ty.builtin "NoneType"])
      = Except.ok (Value.dict [("v", Value.int 1)])
  ∧ load_into_recurse ctTrue 3 innerCls (Value.dict [("v", Value.int 1)]) Option.none
      = Except.ok (Value.inst "Inner" [("v", Value.int 1)])
  ∧ Value.dict [("v", Value.int 1)] ≠ Value.inst "Inner" [("v", Value.int 1)] :=
  ⟨rfl, rfl, fun h => Value.noConfusion h⟩

/-- C2 (amended): for a `typing.Union` descriptor containing exactly one
record-type variant and a present key, the resolver recursively loads
the raw value with that variant and leaves values for the non-record
variants unchanged; a union spelled with the `|` operator is **not**
recognised (its `typing.get_origin` is `types.UnionType`, not
`typing.Union`), so there the raw value is always left unchanged. -/
theorem c2_amended_union_spelling (rld : Loader) (cls : PyClass)
    (data : List (String × Value)) (k : String) (v : Value)
    (pre post args : List Ty) (c : PyClass)
    (hv : alGet? data k = Option.some v)
    (hpre : ∀ a ∈ pre, isCustomCls a = false)
    (hpost : ∀ a ∈ post, isCustomCls a = false) :
    resolveField rld cls data k (Ty.tUnion (pre ++ Ty.record c :: post)) = rld c v
  ∧ resolveField rld cls data k (Ty.pUnion args) = Except.ok v := by
  constructor
  · have h1 : resolveField rld cls data k (Ty.tUnion (pre ++ Ty.record c :: post))
        = loadField rld (Ty.tUnion (pre ++ Ty.record c :: post)) v := by
      simp only [resolveField, hv]
    have h2 : loadField rld (Ty.tUnion (pre ++ Ty.record c :: post)) v
        = if (pre ++ Ty.record c :: post).isEmpty then Except.ok v
          else unionFold rld (pre ++ Ty.record c :: post) v := rfl
    have hne : (pre ++ Ty.record c :: post).isEmpty = false := by
      cases pre <;> rfl
    rw [h1, h2, if_neg (by simp [hne])]
    exact unionFold_single_record rld pre post c v hpre hpost
  · have h1 : resolveField rld cls data k (Ty.pUnion args)
        = loadField rld (Ty.pUnion args) v := by
      simp only [resolveField, hv]
    rw [h1]
    rfl

/-- C2 witness: concrete instance of the amended claim, with the single
record variant in the middle of a three-member `typing.Union`, and a
`|`-union left unresolved. -/
theorem c2_amended_witness :
    resolveField ldStub cfgCls [("x", Value.dict [("v", Value.int 1)])] "x"
        (Ty.tUnion ([Ty.builtin "int"] ++ Ty.record innerCls :: [Ty.builtin "NoneType"]))
      = ldStub innerCls (Value.dict [("v", Value.int 1)])
  ∧ resolveField ldStub cfgCls [("x", Value.dict [("v", Value.int 1)])] "x"
        (Ty.pUnion [Ty.record innerCls])
      = Except.ok (Value.dict [("v", Value.int 1)]) :=
  c2_amended_union_spelling ldStub cfgCls [("x", Value.dict [("v", Value.int 1)])] "x"
    (Value.dict [("v", Value.int 1)]) [Ty.builtin "int"] [Ty.builtin "NoneType"]
    [Ty.record innerCls] innerCls rfl
    (by intro a ha; rw [List.mem_singleton] at ha; subst ha; rfl)
    (by intro a ha; rw [List.mem_singleton] at ha; subst ha; rfl)

/-- C3 counterexample: a top-level mapping with exactly one entry whose
sole key is the empty string.  The claim says the sole key is used, i.e.
the result would be `data[""]`; the code's `if key:` truthiness test
rejects the empty key and returns the entire mapping unscoped instead. -/
theorem c3_counterexample_empty_sole_key :
    load_data [("", Value.int 7)] Option.none (Option.some "Tool")
      = Except.ok (Value.dict [("", Value.int 7)])
  ∧ data_for_nested_key "" (Value.dict [("", Value.int 7)])
      = Except.ok (Value.int 7)
  ∧ (Except.ok (Value.dict [("", Value.int 7)]) : Except Err Value)
      ≠ Except.ok (Value.int 7) :=
  ⟨rfl, rfl, fun h => Value.noConfusion (Except.ok.inj h)⟩

/-- C3 (amended): without an explicit key the data-location step falls
back to the sole top-level key provided that key is truthy (non-empty) —
a sole empty-string key makes the whole mapping be used unscoped — then
to a key derived from the target type's name, then to the entire
mapping; an explicit dotted key is traversed part by part, selecting the
nested sub-mapping. -/
theorem c3_amended_fallback_chain :
    (∀ (k0 : String) (v0 : Value) (cn : Option String), ¬k0 = "" →
        load_data [(k0, v0)] Option.none cn
          = data_for_nested_key k0 (Value.dict [(k0, v0)]))
  ∧ (∀ (v0 : Value) (cn : Option String),
        load_data [("", v0)] Option.none cn = Except.ok (Value.dict [("", v0)]))
  ∧ (∀ (p q : String × Value) (rest : List (String × Value)) (cn : String),
        ¬guess_key cn = "" →
        load_data (p :: q :: rest) Option.none (Option.some cn)
          = data_for_nested_key (guess_key cn) (Value.dict (p :: q :: rest)))
  ∧ (∀ (p q : String × Value) (rest : List (String × Value)),
        load_data (p :: q :: rest) Option.none Option.none
          = Except.ok (Value.dict (p :: q :: rest)))
  ∧ (∀ (cn : Option String),
        load_data [("a", Value.dict [("b", Value.dict [("x", Value.int 1)])])]
            (Option.some "a.b") cn
          = Except.ok (Value.dict [("x", Value.int 1)])) := by
  refine ⟨?_, ?_, ?_, ?_, ?_⟩
  · intro k0 v0 cn h
    have hstep : load_data [(k0, v0)] Option.none cn
        = if k0 = "" then Except.ok (Value.dict [(k0, v0)])
          else data_for_nested_key k0 (Value.dict [(k0, v0)]) := rfl
    rw [hstep, if_neg h]
  · intro v0 cn
    rfl
  · intro p q rest cn h
    have hstep : load_data (p :: q :: rest) Option.none (Option.some cn)
        = if guess_key cn = "" then Except.ok (Value.dict (p :: q :: rest))
          else data_for_nested_key (guess_key cn) (Value.dict (p :: q :: rest)) := rfl
    rw [hstep, if_neg h]
  · intro p q rest
    rfl
  · intro cn
    rfl

/-- C3 witness: concrete sole-key and class-name-fallback selections. -/
theorem c3_amended_witness :
    load_data [("tool", Value.int 5)] Option.none (Option.some "X")
      = data_for_nested_key "tool" (Value.dict [("tool", Value.int 5)])
  ∧ load_data [("a", Value.int 1), ("b", Value.int 2)] Option.none (Option.some "Foo")
      = data_for_nested_key (guess_key "Foo")
          (Value.dict [("a", Value.int 1), ("b", Value.int 2)]) :=
  ⟨c3_amended_fallback_chain.1 "tool" (Value.int 5) (Option.some "X") (by decide),
   c3_amended_fallback_chain.2.2.1 ("a", Value.int 1) ("b", Value.int 2) [] "Foo" (by decide)⟩

/-- C4: the Type Validator fails with `ConfigErrorInvalidType`, carrying
the field name, the offending value and the expected descriptor, for the
first field in declaration order whose present value fails the
type-match predicate; a successful call has every present annotated
value accepted by the predicate and copied unchanged into the output,
and the output holds no key outside the declaration set. -/
theorem c4_validator_first_mismatch_all_or_nothing (ct : CheckPred)
    (data : List (String × Value)) :
    (∀ (pre post : List (String × Ty)) (k : String) (ty : Ty) (v : Value),
        (∀ p ∈ pre, ∀ w, alGet? data p.1 = Option.some w → ct w p.2 = true) →
        alGet? data k = Option.some v → ct v ty = false →
        ensure_types ct data (pre ++ (k, ty) :: post)
          = Except.error (Err.invalidType k v ty))
  ∧ ∀ (anns : List (String × Ty)) (final : List (String × Value)),
      ensure_types ct data anns = Except.ok final →
      (∀ p ∈ anns, ∀ w, alGet? data p.1 = Option.some w →
        ct w p.2 = true ∧ alGet? final p.1 = Option.some w)
      ∧ ∀ a ∈ alKeys final, a ∈ anns.map Prod.fst := by
  constructor
  · intro pre post k ty v hpass hv hfail
    exact ensureTypesGo_first_fail ct data k ty v hv hfail pre hpass post []
  · intro anns final hok
    constructor
    · intro p hp w hw
      refine ⟨ensureTypesGo_ok_checks ct data anns [] final hok p hp w hw, ?_⟩
      have hcov := ensureTypesGo_covers ct data anns [] final hok p hp (by simp [hw])
      rcases Option.ne_none_iff_exists'.mp ((alGet?_ne_none_iff final p.1).mpr hcov)
        with ⟨w2, hw2⟩
      have hval := ensureTypesGo_ok_values ct data anns [] final
        (fun k0 w0 h0 => by simp [alGet?] at h0) hok p.1 w2 hw2
      rw [hw] at hval
      cases hval
      exact hw2
    · intro a ha
      rcases ensureTypesGo_keys_sub ct data anns [] final hok a ha with h | h
      · simp [alKeys] at h
      · exact h

/-- C4 witness: a concrete first-mismatch failure and a concrete
successful validation. -/
theorem c4_validator_witness :
    ensure_types ctInt [("a", Value.int 1), ("b", Value.str "no")]
        ([("a", Ty.builtin "int")] ++ ("b", Ty.builtin "str") :: [])
      = Except.error (Err.invalidType "b" (Value.str "no") (Ty.builtin "str"))
  ∧ (ctInt (Value.int 1) (Ty.builtin "int") = true
      ∧ alGet? [("a", Value.int 1)] "a" = Option.some (Value.int 1)) := by
  constructor
  · exact (c4_validator_first_mismatch_all_or_nothing ctInt
        [("a", Value.int 1), ("b", Value.str "no")]).1
      [("a", Ty.builtin "int")] [] "b" (Ty.builtin "str") (Value.str "no")
      (by intro p hp w hw
          rw [List.mem_singleton] at hp
          subst hp
          have hw2 : Option.some (Value.int 1) = Option.some w := hw
          cases hw2
          rfl)
      rfl rfl
  · exact ((c4_validator_first_mismatch_all_or_nothing ctInt [("a", Value.int 1)]).2
        [("a", Ty.builtin "int")] [("a", Value.int 1)] rfl).1
      ("a", Ty.builtin "int") (List.mem_singleton.mpr rfl) (Value.int 1) rfl

/-- C5: binding a key to null in the input mapping handed to the
resolution pipeline behaves exactly like leaving that key out — the Key
Normalizer (`convert_config`) drops every null-valued entry before the
resolver runs, so the same success value or the same failure results for
every class, predicate, `init` and fuel bound (defaults and the optional
policy then apply to the dropped key). -/
theorem c5_null_entry_equals_absent (ct : CheckPred) (fuel : Nat) (cls : PyClass)
    (l1 l2 : List (String × Value)) (k : String)
    (init : Option (List (String × Value))) :
    load_into_recurse ct fuel cls (Value.dict (l1 ++ (k, Value.none) :: l2)) init
      = load_into_recurse ct fuel cls (Value.dict (l1 ++ l2)) init := by
  cases fuel with
  | zero => rfl
  | succ f =>
    have hc : ∀ (rld : Loader) (ex : List String),
        checkAndConvertData ct rld cls (Value.dict (l1 ++ (k, Value.none) :: l2)) ex
          = checkAndConvertData ct rld cls (Value.dict (l1 ++ l2)) ex := by
      intro rld ex
      simp only [checkAndConvertData, convert_config_drop_none]
    simp only [load_into_recurse, hc]

/-- C6: the collected Field Declaration Set of a class contains exactly
the field names declared somewhere in its mro and not excluded, and the
descriptor looked up for a name is the most-derived declaration — the
first one found walking the mro from the class itself upward. -/
theorem c6_annotations_merge_override_exclude (cls : PyClass) (ex : List String)
    (k : String) :
    alGet? (all_annotations cls ex) k
      = (if k ∈ ex then Option.none else mroLookup (PyClass.mro cls) k)
  ∧ (k ∈ alKeys (all_annotations cls ex)
      ↔ mroLookup (PyClass.mro cls) k ≠ Option.none ∧ k ∉ ex) := by
  refine ⟨all_annotations_get cls ex k, ?_⟩
  rw [← alGet?_ne_none_iff, all_annotations_get cls ex k]
  by_cases hex : k ∈ ex
  · simp [hex]
  · simp [hex]

/-- C7: a present field declared `list[RecordType]` resolves, on
success, to a list of the element-wise recursive loads — same length,
original order; a present field declared `dict[K, RecordType]` resolves
to the same keys in the same order with each value replaced by its
recursive load. -/
theorem c7_containers_elementwise (rld : Loader) (cls : PyClass)
    (data : List (String × Value)) :
    (∀ (k : String) (c : PyClass) (xs : List Value) (w : Value),
        alGet? data k = Option.some (Value.list xs) →
        resolveField rld cls data k (Ty.listT (Ty.record c)) = Except.ok w →
        ∃ ys, w = Value.list ys ∧ ys.length = xs.length ∧
          ∀ i (h1 : i < xs.length) (h2 : i < ys.length),
            rld c (xs.get ⟨i, h1⟩) = Except.ok (ys.get ⟨i, h2⟩))
  ∧ ∀ (k : String) (kT : Ty) (c : PyClass) (entries : List (String × Value)) (w : Value),
      alGet? data k = Option.some (Value.dict entries) →
      resolveField rld cls data k (Ty.dictT kT (Ty.record c)) = Except.ok w →
      ∃ fs, w = Value.dict fs ∧ fs.map Prod.fst = entries.map Prod.fst ∧
        ∀ i (h1 : i < entries.length) (h2 : i < fs.length),
          rld c ((entries.get ⟨i, h1⟩).2) = Except.ok ((fs.get ⟨i, h2⟩).2) := by
  constructor
  · intro k c xs w hx hres
    have h1 : resolveField rld cls data k (Ty.listT (Ty.record c))
        = match loadSeq rld c xs with
          | Except.ok ws => Except.ok (Value.list ws)
          | Except.error e => Except.error e := by
      simp only [resolveField, hx]
      rfl
    rw [h1] at hres
    cases hseq : loadSeq rld c xs with
    | error e =>
      simp only [hseq] at hres
      exact absurd hres (by simp)
    | ok ys =>
      simp only [hseq] at hres
      cases hres
      rcases loadSeq_ok rld c xs ys hseq with ⟨hlen, hpt⟩
      exact ⟨ys, rfl, hlen, hpt⟩
  · intro k kT c entries w hx hres
    have h1 : resolveField rld cls data k (Ty.dictT kT (Ty.record c))
        = match loadMapVals rld c entries with
          | Except.ok ws => Except.ok (Value.dict ws)
          | Except.error e => Except.error e := by
      simp only [resolveField, hx]
      rfl
    rw [h1] at hres
    cases hmv : loadMapVals rld c entries with
    | error e =>
      simp only [hmv] at hres
      exact absurd hres (by simp)
    | ok fs =>
      simp only [hmv] at hres
      cases hres
      rcases loadMapVals_ok rld c entries fs hmv with ⟨hkeys, hpt⟩
      exact ⟨fs, rfl, hkeys, hpt⟩

/-- C7 witness: two `Item` elements loaded in order from a raw sequence,
and a one-entry raw mapping loaded value-wise with its key untouched. -/
theorem c7_containers_witness :
    (∃ ys, Value.list [Value.inst "Item" [("id", Value.int 1)],
          Value.inst "Item" [("id", Value.int 2)]] = Value.list ys
      ∧ ys.length = itemsRaw.length
      ∧ ∀ i (h1 : i < itemsRaw.length) (h2 : i < ys.length),
          ldStub itemCls (itemsRaw.get ⟨i, h1⟩) = Except.ok (ys.get ⟨i, h2⟩))
  ∧ ∃ fs, Value.dict [("a", Value.inst "Item" [("id", Value.int 3)])] = Value.dict fs
      ∧ fs.map Prod.fst = mapRaw.map Prod.fst
      ∧ ∀ i (h1 : i < mapRaw.length) (h2 : i < fs.length),
          ldStub itemCls ((mapRaw.get ⟨i, h1⟩).2) = Except.ok ((fs.get ⟨i, h2⟩).2) :=
  ⟨(c7_containers_elementwise ldStub cfgCls c7Data).1 "items" itemCls itemsRaw
      (Value.list [Value.inst "Item" [("id", Value.int 1)],
        Value.inst "Item" [("id", Value.int 2)]]) rfl rfl,
   (c7_containers_elementwise ldStub cfgCls c7Data).2 "m" (Ty.builtin "str") itemCls mapRaw
      (Value.dict [("a", Value.inst "Item" [("id", Value.int 3)])]) rfl rfl⟩

/-- C8 counterexample: in augmentation mode with an out-of-band
initialization mapping supplied, a data mapping whose key selection
fails makes the call raise the selection error (`KeyError` on the
guessed key), not the usage `ValueError` — so the failure is not always
the usage error, contrary to the claim's "regardless of data contents". -/
theorem c8_counterexample_selection_preempts :
    load_into ctTrue 5 (Target.instTarget (Value.inst "Foo" []) fooCls)
        [("a", Value.int 1), ("b", Value.int 2)] Option.none
        (Option.some [("x", Value.int 0)])
      = Except.error Err.pyErr
  ∧ Err.pyErr ≠ Err.valueError :=
  ⟨rfl, fun h => Err.noConfusion h⟩

/-- C8 (amended): the direct augmentation operation always fails with
the usage `ValueError` when an initialization mapping is supplied —
before touching the instance, whose fields are therefore unchanged (the
call never produces an updated instance) — and through the public
`load_into` entry point the same holds whenever the data-location step
succeeds; a failing key selection preempts it with its own error. -/
theorem c8_amended_usage_error :
    (∀ (ct : CheckPred) (fuel : Nat) (inst : Value) (cls : PyClass) (data : Value)
        (initd : List (String × Value)),
        load_into_existing ct fuel inst cls data (Option.some initd)
          = Except.error Err.valueError)
  ∧ ∀ (ct : CheckPred) (fuel : Nat) (i : Value) (c : PyClass)
      (data : List (String × Value)) (key : Option String)
      (initd : List (String × Value)) (d : Value),
      load_data data key (Option.some (PyClass.name c)) = Except.ok d →
      load_into ct fuel (Target.instTarget i c) data key (Option.some initd)
        = Except.error Err.valueError := by
  constructor
  · intro ct fuel inst cls data initd
    rfl
  · intro ct fuel i c data key initd d h
    simp only [load_into, load_into_instance, h]
    rfl

/-- C8 witness: a concrete augmentation call whose key selection
succeeds and which therefore fails with the usage error. -/
theorem c8_amended_witness :
    load_into ctTrue 3 (Target.instTarget (Value.inst "Foo" []) fooCls)
        [("foo", Value.dict [("z", Value.int 1)])] Option.none (Option.some [])
      = Except.error Err.valueError :=
  c8_amended_usage_error.2 ctTrue 3 (Value.inst "Foo" []) fooCls
    [("foo", Value.dict [("z", Value.int 1)])] Option.none []
    (Value.dict [("z", Value.int 1)]) rfl

/-- C9: a successful run of the Recursive Resolver returns a mapping
whose key set is exactly the key set of the field-declaration set it was
given; hence every annotated key is present in the resolver's output and
the validator's annotated-key-missing branch cannot fire on it. -/
theorem c9_resolved_keys_match_annotations (rld : Loader) (cls : PyClass)
    (data updated : List (String × Value)) (anns : List (String × Ty))
    (h : load_recursive rld cls data anns = Except.ok updated) :
    (∀ a, a ∈ alKeys updated ↔ a ∈ anns.map Prod.fst)
  ∧ ∀ p ∈ anns, alGet? updated p.1 ≠ Option.none := by
  have hk := loadRecursiveGo_keys rld cls data anns [] updated h
  constructor
  · intro a
    rw [hk a]
    simp [alKeys]
  · intro p hp
    rw [alGet?_ne_none_iff, hk p.1]
    exact Or.inr (List.mem_map_of_mem Prod.fst hp)

/-- C9 witness: a concrete successful resolution whose output keys are
the declared keys. -/
theorem c9_resolver_witness :
    (∀ a, a ∈ alKeys [("name", Value.str "Bob")]
        ↔ a ∈ ([("name", Ty.builtin "str")] : List (String × Ty)).map Prod.fst)
  ∧ ∀ p ∈ ([("name", Ty.builtin "str")] : List (String × Ty)),
      alGet? [("name", Value.str "Bob")] p.1 ≠ Option.none :=
  c9_resolved_keys_match_annotations ldStub nameCls [("name", Value.str "Bob")]
    [("name", Value.str "Bob")] [("name", Ty.builtin "str")] rfl

/-- C10: the data-location step on empty data returns the empty mapping
for every key argument, dotted or not, without traversing it — so no
key-lookup error can arise there; required fields then surface later as
`ConfigErrorMissingKey`, as the concrete empty-data load shows. -/
theorem c10_empty_data_short_circuit :
    (∀ (key cn : Option String), load_data [] key cn = Except.ok (Value.dict []))
  ∧ load_into_class ctTrue 3 nameCls [] Option.none Option.none
      = Except.error (Err.missingKey "name" nameCls (Ty.builtin "str")) :=
  ⟨fun _ _ => rfl, rfl⟩

end TypedConfig
